import Mathlib

/-!
Verification of the grab HTTP download library (cavaliergopher/grab).

This file shallowly embeds the parts of the source that the verified
claims are about:

* `src/response.go` — `Response.setFileInfo`, `Response.readResponse`,
  `Response.checkExisting`, `Response.checksum`, `Response.copy`,
  `Response.BytesComplete`, `Response.Progress`;
* `src/client.go` / the client of the same era as `response.go`
  (`Client.do`, `Client.doHTTPRequest`);
* `src/filename.go` — `guessFilename`;
* `src/util.go` — `copyBuffer`;
* `src/v3/transfer.go` — `transfer.Copy`, `transferRanges.Copy`,
  `transferRanges.requestChunk`, `transferRangesErr`.

Filenames are modelled as `List Char`, byte counts read in one loop
iteration as `ℕ` (Go read counts are non-negative), sizes as `ℤ`
(Go int64; the quantities handled stay far below 2^63 so wrap-around
is irrelevant), file contents as `List ℕ`. The filesystem is a total
map from path to an optional stat record; stat errors other than
not-found are not modelled (none of the claims concerns them).
-/

/-- Modelled from the spec: the closed error taxonomy (section 7).
The sentinel error values `ErrBadLength`, `ErrNoFilename`,
`ErrBadChecksum`, `ErrFileExists` and context cancellation are
referenced throughout `src/response.go` but the file defining them is
absent from `src/` (the `src/error.go` present is from an older,
code-based error scheme). Only the identity of each error matters for
the claims, so they are modelled as an enumeration. -/
inductive GrabErr
  | badLength
  | noFilename
  | badChecksum
  | fileExists
  | canceled
deriving DecidableEq

/-- Result of `os.Stat`: whether the path is a directory, and its size
(`FileInfo.IsDir`, `FileInfo.Size`). -/
structure FStat where
  isDir : Bool
  size : ℤ
deriving DecidableEq

/-- The fields of `Request` read by the embedded code paths
(`Request.Filename`, `Request.SkipExisting`, `Request.NoResume`,
`Request.Size`, and the checksum configuration set by
`Request.SetChecksum`: `hash` presence, `checksum` bytes,
`deleteOnError`). -/
structure Req where
  filename : List Char
  skipExisting : Bool
  noResume : Bool
  size : ℤ
  hasHash : Bool
  checksum : List ℕ
  deleteOnError : Bool
deriving DecidableEq

/-- The write flags computed for `os.OpenFile`
(`os.O_CREATE|os.O_WRONLY` initially, `os.O_APPEND|os.O_WRONLY` when
resuming, `response.go` line 307). -/
inductive WFlags
  | createWrite
  | appendWrite
deriving DecidableEq

/-- The mutable fields of `Response` touched by the embedded code:
`Filename`, `Size`, `CanResume`, `DidResume`, `bytesResumed`, `fi`
(existing-file size, `none` when no regular file exists at the path),
the `ContentLength` of the stored `HTTPResponse` (`none` before any
HTTP response was processed), `writeFlags` and the `Range` header set
on the request for a resume (`none` when unset). -/
structure RState where
  filename : List Char
  size : ℤ
  canResume : Bool
  didResume : Bool
  bytesResumed : ℤ
  fi : Option ℤ
  httpCL : Option ℤ
  writeFlags : WFlags
  rangeFrom : Option ℤ
deriving DecidableEq

/-- The fields of an `http.Response` read by the embedded code:
`ContentLength` (−1 in Go when the server reported none), whether
`Accept-Ranges: bytes` is set, the `filename` parameter of a
successfully media-type-parsed `Content-Disposition` header (`none`
when the header is missing, fails to parse, or has no such parameter),
and `Request.URL.Path`. -/
structure HResp where
  contentLength : ℤ
  acceptRanges : Bool
  cdFilename : Option (List Char)
  urlPath : List Char
deriving DecidableEq

/-- The filesystem visible to `os.Stat`. -/
def FileSys := List Char → Option FStat

/-- Initial `Response` built by `Client.do` (the client of
`response.go`'s era: `Filename` seeded with the request's hint,
write flags `os.O_CREATE|os.O_WRONLY`). -/
def initState (req : Req) : RState :=
  ⟨req.filename, 0, false, false, 0, none, none, .createWrite, none⟩

/-- `Response.setFileInfo` (`response.go` 193-209): stat the current
`Filename`; not-found leaves the state unchanged; a directory clears
`Filename`; a regular file records its `FileInfo`. -/
def setFileInfo (fs : FileSys) (st : RState) : RState :=
  match fs st.filename with
  | none => st
  | some s =>
    if s.isDir then { st with filename := [] }
    else { st with fi := some s.size }

/-- Go `path.Base` (stdlib): empty path gives ".", trailing slashes
are stripped, then everything after the last '/' is returned; a path
of only slashes gives "/". -/
def pathBase (p : List Char) : List Char :=
  if p = [] then ['.']
  else
    let q := (p.reverse.dropWhile (fun c => c = '/')).reverse
    if q = [] then ['/']
    else (q.reverse.takeWhile (fun c => c ≠ '/')).reverse

/-- `guessFilename` (`filename.go` 12-29): prefer the
`Content-Disposition` `filename` parameter; otherwise use
`path.Base` of the URL path unless that path is empty or ends in a
slash; otherwise `ErrNoFilename`. -/
def guessFilename (cdFilename : Option (List Char)) (urlPath : List Char) :
    Except GrabErr (List Char) :=
  match cdFilename with
  | some name => .ok name
  | none =>
    if urlPath ≠ [] ∧ urlPath.getLast? ≠ some '/' then .ok (pathBase urlPath)
    else .error .noFilename

/-- Go `filepath.Join` restricted to the shapes the claims exercise
(no `Clean` normalisation; none of the claims depends on it). -/
def joinPath (a b : List Char) : List Char :=
  if a = [] then b else if b = [] then a else a ++ '/' :: b

/-- `Response.readResponse` (`response.go` 215-247): record the HTTP
response, set `Size = bytesResumed + ContentLength`, set `CanResume`
when `Accept-Ranges: bytes`; with a positive `ContentLength` fail
`ErrBadLength` when the request's expected size mismatches or when an
existing file is larger than `Size`; resolve a missing filename via
`guessFilename`, join it under the request's directory hint and
re-stat it. -/
def readResponse (req : Req) (st : RState) (h : HResp) (fs : FileSys) :
    Except GrabErr RState :=
  let st1 := { st with
    httpCL := some h.contentLength
    size := st.bytesResumed + h.contentLength
    canResume := st.canResume || h.acceptRanges }
  if h.contentLength > 0 ∧ req.size > 0 ∧ req.size ≠ st1.size then
    .error .badLength
  else if h.contentLength > 0 ∧
      (match st1.fi with | some fsize => decide (fsize > st1.size) | none => false) = true then
    .error .badLength
  else if st1.filename = [] then
    match guessFilename h.cdFilename h.urlPath with
    | .error e => .error e
    | .ok name =>
      .ok (setFileInfo fs { st1 with filename := joinPath req.filename name })
  else
    .ok st1

/-- Result of `Response.checksum`: the returned error, whether the
file was removed, and whether execution reached the digest
comparison (`Sum`/`bytes.Equal`, `response.go` 475-476). -/
structure CkOut where
  err : Option GrabErr
  removed : Bool
  compared : Bool
deriving DecidableEq

/-- `Response.checksum` (`response.go` 451-485): no-op without a
configured hash; hash the destination file; if the byte count hashed
differs from `Size`, `ErrBadLength`; on digest mismatch remove the
file iff `deleteOnError` and return `ErrBadChecksum`. `file` is the
content read back from the destination, `hashFn` the pluggable digest.
The context passed to `copyBuffer` is not cancelled here (cancellation
of the checksum pass is not the subject of any claim). -/
def checksumRun (req : Req) (size : ℤ) (file : List ℕ)
    (hashFn : List ℕ → List ℕ) : CkOut :=
  if ¬ req.hasHash then ⟨none, false, false⟩
  else if (file.length : ℤ) ≠ size then ⟨some .badLength, false, false⟩
  else if hashFn file ≠ req.checksum then ⟨some .badChecksum, req.deleteOnError, true⟩
  else ⟨none, false, true⟩

/-- Result of `Response.checkExisting`: the `(bool, error)` pair plus
the updated state and checksum bookkeeping. -/
structure CEOut where
  done : Bool
  err : Option GrabErr
  st : RState
  removed : Bool
  compared : Bool
deriving DecidableEq

/-- `Response.checkExisting` (`response.go` 259-311), in source
order: nothing to do without a stat record; `SkipExisting` returns
`ErrFileExists` immediately; the expected size is `Request.Size`, or
the stored response's `ContentLength` when that is unset; size zero
means nothing to check; an existing file larger than the expected
size is `ErrBadLength`; an exactly-sized file marks the transfer
resumed and complete and runs the checksum; otherwise `NoResume`
forgoes resuming; otherwise a range-capable server gets a `Range`
header, append write flags and resume bookkeeping. -/
def checkExisting (req : Req) (st : RState) (file : List ℕ)
    (hashFn : List ℕ → List ℕ) : CEOut :=
  match st.fi with
  | none => ⟨false, none, st, false, false⟩
  | some fsize =>
    if req.skipExisting then ⟨true, some .fileExists, st, false, false⟩
    else
      let size := if req.size = 0 then
        (match st.httpCL with | some cl => cl | none => 0) else req.size
      if size = 0 then ⟨false, none, st, false, false⟩
      else if size < fsize then ⟨false, some .badLength, st, false, false⟩
      else if size = fsize then
        let st2 := { st with didResume := true, bytesResumed := fsize }
        let ck := checksumRun req st2.size file hashFn
        match ck.err with
        | some e => ⟨false, some e, st2, ck.removed, ck.compared⟩
        | none => ⟨true, none, st2, ck.removed, ck.compared⟩
      else if req.noResume then ⟨false, none, st, false, false⟩
      else if st.canResume then
        ⟨false, none,
          { st with rangeFrom := some fsize, didResume := true,
                    bytesResumed := fsize, writeFlags := .appendWrite },
          false, false⟩
      else ⟨false, none, st, false, false⟩

/-- Result of `Client.do`: terminal error of a closed response (or
`none`), whether `do` returned with the transfer still to run
(`proceed`), the number of HTTP requests issued, the response state,
and checksum bookkeeping. -/
structure DoOut where
  err : Option GrabErr
  proceed : Bool
  httpCount : ℕ
  st : RState
  removed : Bool
  compared : Bool
deriving DecidableEq

/-- Result of `Client.doHTTPRequest`: the `(bool, error)` pair, the
updated state, and checksum bookkeeping. -/
structure HTTPOut where
  err : Option GrabErr
  done : Bool
  st : RState
  removed : Bool
  compared : Bool
deriving DecidableEq

/-- `Client.doHTTPRequest` (client of `response.go`'s era): process
the HTTP response via `readResponse`, then, unless already resuming,
re-run `checkExisting`. -/
def doHTTP (req : Req) (st : RState) (h : HResp) (fs : FileSys)
    (file : List ℕ) (hashFn : List ℕ → List ℕ) : HTTPOut :=
  match readResponse req st h fs with
  | .error e => ⟨some e, false, st, false, false⟩
  | .ok st1 =>
    if ¬ st1.didResume then
      let ce := checkExisting req st1 file hashFn
      ⟨ce.err, ce.done, ce.st, ce.removed, ce.compared⟩
    else
      ⟨none, false, st1, false, false⟩

/-- `Client.do` (client of `response.go`'s era): seed the response,
stat the destination hint, run the early `checkExisting` (closing the
response before any HTTP traffic when it finishes or fails the
request), then a HEAD probe — sent only when resuming is allowed and
either a file exists or the filename is unresolved — then the GET,
each processed by `doHTTP`. `headH`/`getH` are the responses the
remote server would give to the HEAD and GET requests; `httpCount`
counts the HTTP requests actually issued. -/
def clientDo (req : Req) (fs : FileSys) (headH getH : HResp)
    (file : List ℕ) (hashFn : List ℕ → List ℕ) : DoOut :=
  let st1 := setFileInfo fs (initState req)
  let ce := checkExisting req st1 file hashFn
  if ce.done ∨ ce.err ≠ none then
    ⟨ce.err, false, 0, ce.st, ce.removed, ce.compared⟩
  else
    let sendHead := ¬ req.noResume ∧ (ce.st.fi ≠ none ∨ ce.st.filename = [])
    let n := if sendHead then 1 else 0
    let ho : HTTPOut :=
      if sendHead then doHTTP req ce.st headH fs file hashFn
      else ⟨none, false, ce.st, false, false⟩
    if ho.done ∨ ho.err ≠ none then
      ⟨ho.err, false, n, ho.st, ho.removed, ho.compared⟩
    else
      let go := doHTTP req ho.st getH fs file hashFn
      if go.done ∨ go.err ≠ none then
        ⟨go.err, false, n + 1, go.st, ho.removed || go.removed,
          ho.compared || go.compared⟩
      else
        ⟨none, true, n + 1, go.st, ho.removed || go.removed,
          ho.compared || go.compared⟩

/-- `Response.BytesComplete` (`response.go` 132-134):
`bytesResumed + bytesTransferred`. -/
def bytesCompleteOf (bytesResumed bytesTransferred : ℤ) : ℤ :=
  bytesResumed + bytesTransferred

/-- `Response.Progress` (`response.go` 151-157): 0 when `Size` is 0,
otherwise `BytesComplete / Size`. The Go code divides float64s; the
claims only concern exact values, modelled in ℚ. -/
def progressOf (size bytesComplete : ℤ) : ℚ :=
  if size = 0 then 0 else (bytesComplete : ℚ) / (size : ℚ)

/-- The successive values of `Response.bytesTransferred` observed
after each iteration of the copy loop of `Response.copy`
(`response.go` 434: one atomic add of the written count per
iteration), starting from its initial value 0; `chunks` lists the
byte counts of the successive reads. -/
def copyStates (chunks : List ℕ) : List ℕ :=
  chunks.scanl (fun acc n => acc + n) 0

/-- An observable primitive action of a body-copy loop: a cancellation
checkpoint (`isCanceled` / `select` on `ctx.Done()`), a read of `n`
bytes from the body, or a write of `n` bytes to the destination. -/
inductive Ev
  | check
  | read (n : ℕ)
  | write (n : ℕ)
deriving DecidableEq

/-- Outcome of running a body-copy loop: the trace of primitive
actions, the returned error (`none` on EOF) and the final byte
counter. -/
structure RunOut where
  trace : List Ev
  res : Option GrabErr
  written : ℕ
deriving DecidableEq

/-- `Response.copy` (`response.go` 402-448), per iteration: check the
context; read; check the context again; write the bytes read and add
them to the counter; stop at EOF (modelled as reading 0 bytes at the
end of `chunks` — the EOF iteration still writes the empty slice, as
the source writes `buffer[:nr]`). The context is modelled by `c`, the
number of checkpoints that observe it not yet cancelled: a checkpoint
with budget 0 observes cancellation and the loop closes with the
context's error. -/
def responseCopy : ℕ → List ℕ → RunOut
  | 0, _ => ⟨[.check], some .canceled, 0⟩
  | 1, [] => ⟨[.check, .read 0, .check], some .canceled, 0⟩
  | _ + 2, [] => ⟨[.check, .read 0, .check, .write 0], none, 0⟩
  | 1, n :: _ => ⟨[.check, .read n, .check], some .canceled, 0⟩
  | c + 2, n :: rest =>
    let o := responseCopy c rest
    ⟨.check :: .read n :: .check :: .write n :: o.trace, o.res, n + o.written⟩

/-- `copyBuffer` (`util.go` 20-54), per iteration: check the context;
read; when `nr > 0` check the context again and write; stop at EOF
(a read of 0 bytes at the end of `chunks`, which performs no write). -/
def copyBufferRun : ℕ → List ℕ → RunOut
  | 0, _ => ⟨[.check], some .canceled, 0⟩
  | _ + 1, [] => ⟨[.check, .read 0], none, 0⟩
  | c + 1, n :: rest =>
    if n = 0 then
      let o := copyBufferRun c rest
      ⟨.check :: .read 0 :: o.trace, o.res, o.written⟩
    else if c = 0 then
      ⟨[.check, .read n, .check], some .canceled, 0⟩
    else
      let o := copyBufferRun (c - 1) rest
      ⟨.check :: .read n :: .check :: .write n :: o.trace, o.res, n + o.written⟩

/-- `transfer.Copy` (`v3/transfer.go` 58-114), per iteration: check
the context (`select` on `ctx.Done()`); read; when `nr > 0` write
immediately — there is no second checkpoint between the read and the
write; stop at EOF. The rate limiter is absent (`lim == nil`). -/
def transferCopy : ℕ → List ℕ → RunOut
  | 0, _ => ⟨[.check], some .canceled, 0⟩
  | _ + 1, [] => ⟨[.check, .read 0], none, 0⟩
  | c + 1, n :: rest =>
    let o := transferCopy c rest
    if n = 0 then ⟨.check :: .read 0 :: o.trace, o.res, o.written⟩
    else ⟨.check :: .read n :: .write n :: o.trace, o.res, n + o.written⟩

/-- `transferRanges.requestChunk`'s copy loop (`v3/transfer.go`
273-306): the same shape as `transfer.Copy` — checkpoint, read, then
an unguarded `WriteAt`. -/
def requestChunkRun : ℕ → List ℕ → RunOut
  | 0, _ => ⟨[.check], some .canceled, 0⟩
  | _ + 1, [] => ⟨[.check, .read 0], none, 0⟩
  | c + 1, n :: rest =>
    let o := requestChunkRun c rest
    if n = 0 then ⟨.check :: .read 0 :: o.trace, o.res, o.written⟩
    else ⟨.check :: .read n :: .write n :: o.trace, o.res, n + o.written⟩

/-- Scans a trace and decides whether every write is separated from
the read that precedes it by a cancellation checkpoint. The flag
carries whether a read has occurred with no checkpoint since. -/
def betweenOK : List Ev → Bool → Bool
  | [], _ => true
  | .read _ :: rest, _ => betweenOK rest true
  | .check :: rest, _ => betweenOK rest false
  | .write _ :: rest, pending => if pending then false else betweenOK rest pending

/-- Decides whether every read in a trace is immediately preceded by
a cancellation checkpoint; `prev` is the preceding action. -/
def readsChecked : Option Ev → List Ev → Bool
  | _, [] => true
  | prev, .read n :: rest => prev = some .check && readsChecked (some (.read n)) rest
  | _, .check :: rest => readsChecked (some .check) rest
  | _, .write n :: rest => readsChecked (some (.write n)) rest

/-- Decides whether a trace ends at a cancellation checkpoint (so
nothing — in particular no write — followed the checkpoint that
observed cancellation). -/
def endsWithCheck (l : List Ev) : Bool :=
  match l.getLast? with
  | some .check => true
  | _ => false

/-- C9 as stated: in every body-copy loop — `Response.copy`,
`copyBuffer`, v3 `transfer.Copy` and `requestChunk` — the context is
checked before each read and again between each read and its write,
and a checkpoint observing cancellation terminates the transfer with
the context's error before any further write. -/
def claimC9 : Prop :=
  (∀ c chunks, readsChecked none (responseCopy c chunks).trace = true ∧
      betweenOK (responseCopy c chunks).trace false = true ∧
      ((responseCopy c chunks).res = some .canceled →
        endsWithCheck (responseCopy c chunks).trace = true)) ∧
  (∀ c chunks, readsChecked none (copyBufferRun c chunks).trace = true ∧
      betweenOK (copyBufferRun c chunks).trace false = true ∧
      ((copyBufferRun c chunks).res = some .canceled →
        endsWithCheck (copyBufferRun c chunks).trace = true)) ∧
  (∀ c chunks, readsChecked none (transferCopy c chunks).trace = true ∧
      betweenOK (transferCopy c chunks).trace false = true ∧
      ((transferCopy c chunks).res = some .canceled →
        endsWithCheck (transferCopy c chunks).trace = true)) ∧
  (∀ c chunks, readsChecked none (requestChunkRun c chunks).trace = true ∧
      betweenOK (requestChunkRun c chunks).trace false = true ∧
      ((requestChunkRun c chunks).res = some .canceled →
        endsWithCheck (requestChunkRun c chunks).trace = true))

/-- The chunk loop of `transferRanges.Copy` (`v3/transfer.go`
213-238), recursing on the number of chunks still to emit (`k + 1`
remaining; `k = 0` is the last chunk, where the source sets
`end = c.offset + c.length`); every computed end is capped at
`length`; each chunk starts where the previous one ended. -/
def chunkLoop (offset length cs : ℤ) : ℕ → ℤ → List (ℤ × ℤ)
  | 0, _ => []
  | k + 1, start =>
    let e0 : ℤ := if k = 0 then offset + length else start + cs
    let e : ℤ := if e0 > length then length else e0
    (start, e) :: chunkLoop offset length cs k e

/-- The chunk ranges `[start, end)` computed by
`transferRanges.Copy`: fewer than one worker is raised to one,
`chunkSize = (length − offset) / workers` (Go `/` truncates toward
zero; all operands here are non-negative under the claims'
hypotheses, where truncation and Euclidean division agree), and the
loop starts at `offset`. -/
def transferRangesChunks (length offset : ℤ) (workers : ℕ) : List (ℤ × ℤ) :=
  let w := if workers < 1 then 1 else workers
  chunkLoop offset length ((length - offset) / (w : ℤ)) w offset

/-- Spec-side decidable predicate for C6: the ranges are contiguous
starting from `s` (each chunk begins where the previous ended). -/
def contiguousFrom : ℤ → List (ℤ × ℤ) → Bool
  | _, [] => true
  | s, (a, b) :: rest => a = s && contiguousFrom b rest

/-- Spec-side decidable predicate for C6: every chunk except the last
has size exactly `cs`. -/
def sizesOK (cs : ℤ) : List (ℤ × ℤ) → Bool
  | [] => true
  | [_] => true
  | a :: b :: rest => a.2 - a.1 = cs && sizesOK cs (b :: rest)

/-- The `completed` array of `transferRanges.Copy` (`v3/transfer.go`
216, 230-235): entry `id` is the chunk's `limit` when its
`requestChunk` returned nil, and stays at the zero value otherwise.
`ok` records which chunks completed successfully — under the
concurrent `errgroup`, chunks after a failed one may or may not have
completed, so `ok` is an arbitrary outcome. -/
def completedOf (chunks : List (ℤ × ℤ)) (ok : List Bool) : List ℤ :=
  List.zipWith (fun (c : ℤ × ℤ) (o : Bool) => if o then c.2 else 0) chunks ok

/-- The `LastOffsetEnd` computation of `transferRanges.Copy`
(`v3/transfer.go` 240-249): scan `completed` in index order, stopping
at the first zero entry, keeping the last value seen (`LastOffsetEnd`
starts at the zero value 0). -/
def lastOffsetEndAux : List ℤ → ℤ → ℤ
  | [], acc => acc
  | x :: xs, acc => if x = 0 then acc else lastOffsetEndAux xs x

/-- `transferRangesErr.LastOffsetEnd` as computed by the source. -/
def lastOffsetEnd (completed : List ℤ) : ℤ :=
  lastOffsetEndAux completed 0

/-- `transferRangesErr` (`v3/transfer.go` 135-151): wraps the inner
error and carries `LastOffsetEnd`. -/
structure TRErr where
  err : GrabErr
  lastOff : ℤ
deriving DecidableEq

/-- Construction of the compound error in `transferRanges.Copy`
(`v3/transfer.go` 240-249). -/
def mkTransferRangesErr (inner : GrabErr) (completed : List ℤ) : TRErr :=
  ⟨inner, lastOffsetEnd completed⟩

/-- `transferRangesErr.Unwrap` (`v3/transfer.go` 149-151). -/
def trErrUnwrap (e : TRErr) : GrabErr :=
  e.err

/-- Spec-side definition for C7, following the claim's words: the end
offset of the highest-indexed chunk that completed successfully
(`none` when no chunk did). -/
def highestCompletedEnd (chunks : List (ℤ × ℤ)) (ok : List Bool) : Option ℤ :=
  ((List.zip chunks ok).filter (fun p => p.2)).getLast?.map (fun p => p.1.2)

/-- C7 as stated: on a chunk failure the compound error wraps the
inner cause and its `LastOffsetEnd` equals the end offset of the
highest-indexed chunk that completed successfully before the
failure. -/
def claimC7 : Prop :=
  ∀ (chunks : List (ℤ × ℤ)) (ok : List Bool) (inner : GrabErr) (e : ℤ),
    ok.length = chunks.length →
    highestCompletedEnd chunks ok = some e →
    trErrUnwrap (mkTransferRangesErr inner (completedOf chunks ok)) = inner ∧
    (mkTransferRangesErr inner (completedOf chunks ok)).lastOff = e

/-- C2 as stated: for every request with `SkipExisting` whose
destination path exists as a regular file, `Client.do` closes the
response with `ErrFileExists`, with `DidResume = true` and
`bytesResumed` equal to the existing file's size, and issues no HTTP
request. -/
def claimC2 : Prop :=
  ∀ (req : Req) (fs : FileSys) (headH getH : HResp) (file : List ℕ)
    (hashFn : List ℕ → List ℕ) (s : ℤ),
    req.skipExisting = true →
    fs req.filename = some ⟨false, s⟩ →
    (clientDo req fs headH getH file hashFn).err = some .fileExists ∧
    (clientDo req fs headH getH file hashFn).st.didResume = true ∧
    (clientDo req fs headH getH file hashFn).st.bytesResumed = s ∧
    (clientDo req fs headH getH file hashFn).httpCount = 0

/-- C3 as stated: with `SkipExisting` set and a configured checksum,
an existing destination file whose content does not hash to the
expected digest makes the transfer terminate with `ErrBadChecksum`. -/
def claimC3 : Prop :=
  ∀ (req : Req) (fs : FileSys) (headH getH : HResp) (file : List ℕ)
    (hashFn : List ℕ → List ℕ) (s : ℤ),
    req.skipExisting = true →
    req.hasHash = true →
    fs req.filename = some ⟨false, s⟩ →
    hashFn file ≠ req.checksum →
    (clientDo req fs headH getH file hashFn).err = some .badChecksum

/-- C8 as stated: `Response.Progress` returns
`BytesComplete / Size`, and returns 0 whenever the size is unknown —
including when the server reported no `Content-Length`
(`ContentLength = −1` after `readResponse`). -/
def claimC8 : Prop :=
  ∀ (req : Req) (st : RState) (h : HResp) (fs : FileSys) (st2 : RState)
    (complete : ℤ),
    readResponse req st h fs = .ok st2 →
    (st2.size ≠ 0 → progressOf st2.size complete = (complete : ℚ) / (st2.size : ℚ)) ∧
    (h.contentLength = -1 → progressOf st2.size complete = 0)

/-- Helper: small concrete filesystem with one regular file of size
`s` at path `f`. -/
def oneFileFS (f : List Char) (s : ℤ) : FileSys :=
  fun p => if p = f then some ⟨false, s⟩ else none

/-- C2 counterexample: with `SkipExisting` and an existing 5-byte
regular file at the destination, the closed response carries
`ErrFileExists` but `DidResume` is false (the claim requires it to be
true), refuting the claim as stated. -/
theorem cex_C2 : ¬ claimC2 := by
  intro hcl
  have h := hcl ⟨['f'], true, false, 0, false, [], false⟩ (oneFileFS ['f'] 5)
    ⟨10, false, none, []⟩ ⟨10, false, none, []⟩ [] (fun l => l) 5 rfl (by decide)
  exact absurd h.2.1 (by decide)

/-- C2 amended: for every request with `SkipExisting` whose
destination path exists as a regular file, `Client.do` closes the
response with `ErrFileExists` before any HTTP request is issued, but
leaves `DidResume` false and `bytesResumed` zero (the skip branch of
`checkExisting` returns before either is set). -/
theorem thm_C2_amended (req : Req) (fs : FileSys) (headH getH : HResp)
    (file : List ℕ) (hashFn : List ℕ → List ℕ) (s : ℤ)
    (hskip : req.skipExisting = true)
    (hfs : fs req.filename = some ⟨false, s⟩) :
    (clientDo req fs headH getH file hashFn).err = some .fileExists ∧
    (clientDo req fs headH getH file hashFn).httpCount = 0 ∧
    (clientDo req fs headH getH file hashFn).st.didResume = false ∧
    (clientDo req fs headH getH file hashFn).st.bytesResumed = 0 := by
  simp [clientDo, setFileInfo, initState, checkExisting, hskip, hfs]

/-- Witness for C2's amended theorem at a concrete input. -/
theorem wit_C2 :
    (clientDo ⟨['f'], true, false, 0, false, [], false⟩ (oneFileFS ['f'] 5)
      ⟨10, false, none, []⟩ ⟨10, false, none, []⟩ [] (fun l => l)).err =
        some .fileExists ∧
    (clientDo ⟨['f'], true, false, 0, false, [], false⟩ (oneFileFS ['f'] 5)
      ⟨10, false, none, []⟩ ⟨10, false, none, []⟩ [] (fun l => l)).httpCount = 0 ∧
    (clientDo ⟨['f'], true, false, 0, false, [], false⟩ (oneFileFS ['f'] 5)
      ⟨10, false, none, []⟩ ⟨10, false, none, []⟩ [] (fun l => l)).st.didResume =
        false ∧
    (clientDo ⟨['f'], true, false, 0, false, [], false⟩ (oneFileFS ['f'] 5)
      ⟨10, false, none, []⟩ ⟨10, false, none, []⟩ [] (fun l => l)).st.bytesResumed =
        0 :=
  thm_C2_amended _ _ _ _ _ _ 5 rfl (by decide)

/-- C3 counterexample: with `SkipExisting`, a configured checksum
whose expected digest does not match the existing file's content, the
terminal error is `ErrFileExists`, not `ErrBadChecksum`, refuting the
claim as stated. -/
theorem cex_C3 : ¬ claimC3 := by
  intro hcl
  have h := hcl ⟨['f'], true, false, 0, true, [9], false⟩ (oneFileFS ['f'] 2)
    ⟨2, false, none, []⟩ ⟨2, false, none, []⟩ [1, 2] (fun l => l) 2 rfl rfl
    (by decide) (by decide)
  exact absurd h (by decide)

/-- C3 amended: with `SkipExisting` set, an existing destination file
yields `ErrFileExists` regardless of any configured checksum, and the
digest is never compared; the checksum of an existing complete file
is verified only on the non-skip path, where a mismatched digest
yields `ErrBadChecksum` (closing the response during the HEAD
probe). -/
theorem thm_C3_amended (req : Req) (fs : FileSys) (headH getH : HResp)
    (file : List ℕ) (hashFn : List ℕ → List ℕ) (s : ℤ) :
    (req.skipExisting = true → fs req.filename = some ⟨false, s⟩ →
      (clientDo req fs headH getH file hashFn).err = some .fileExists ∧
      (clientDo req fs headH getH file hashFn).compared = false) ∧
    (req.skipExisting = false → req.noResume = false → req.size = 0 →
      req.hasHash = true → req.filename ≠ [] →
      fs req.filename = some ⟨false, s⟩ →
      headH.contentLength = s → 0 < s → (file.length : ℤ) = s →
      hashFn file ≠ req.checksum →
      (clientDo req fs headH getH file hashFn).err = some .badChecksum ∧
      (clientDo req fs headH getH file hashFn).compared = true ∧
      (clientDo req fs headH getH file hashFn).httpCount = 1) := by
  constructor
  · intro hskip hfs
    simp [clientDo, setFileInfo, initState, checkExisting, hskip, hfs]
  · intro hskip hnores hsize hhash hfn hfs hcl hs hflen hmm
    have hs0 : s ≠ 0 := ne_of_gt hs
    simp only [clientDo, setFileInfo, initState, checkExisting, doHTTP,
      readResponse, checksumRun, hskip, hnores, hsize, hhash, hfs, hcl, hflen]
    simp [hfn, hs0, hmm, lt_irrefl]

/-- Witness for C3's amended theorem at concrete inputs: the skip
branch at a mismatched-checksum input, and the non-skip complete-file
branch with the same mismatch. -/
theorem wit_C3 :
    ((clientDo ⟨['f'], true, false, 0, true, [9], false⟩ (oneFileFS ['f'] 2)
        ⟨2, false, none, []⟩ ⟨2, false, none, []⟩ [1, 2] (fun l => l)).err =
      some .fileExists ∧
     (clientDo ⟨['f'], true, false, 0, true, [9], false⟩ (oneFileFS ['f'] 2)
        ⟨2, false, none, []⟩ ⟨2, false, none, []⟩ [1, 2] (fun l => l)).compared =
      false) ∧
    ((clientDo ⟨['f'], false, false, 0, true, [9], false⟩ (oneFileFS ['f'] 2)
        ⟨2, false, none, []⟩ ⟨2, false, none, []⟩ [1, 2] (fun l => l)).err =
      some .badChecksum ∧
     (clientDo ⟨['f'], false, false, 0, true, [9], false⟩ (oneFileFS ['f'] 2)
        ⟨2, false, none, []⟩ ⟨2, false, none, []⟩ [1, 2] (fun l => l)).compared =
      true ∧
     (clientDo ⟨['f'], false, false, 0, true, [9], false⟩ (oneFileFS ['f'] 2)
        ⟨2, false, none, []⟩ ⟨2, false, none, []⟩ [1, 2] (fun l => l)).httpCount =
      1) :=
  ⟨(thm_C3_amended ⟨['f'], true, false, 0, true, [9], false⟩ (oneFileFS ['f'] 2)
      ⟨2, false, none, []⟩ ⟨2, false, none, []⟩ [1, 2] (fun l => l) 2).1
      rfl (by decide),
   (thm_C3_amended ⟨['f'], false, false, 0, true, [9], false⟩ (oneFileFS ['f'] 2)
      ⟨2, false, none, []⟩ ⟨2, false, none, []⟩ [1, 2] (fun l => l) 2).2
      rfl rfl rfl rfl (by decide) (by decide) rfl (by decide) (by decide)
      (by decide)⟩

/-- C4: evaluation of the cited code at the failing input of
`TestIssue37` / `TestResumeWithNoResumeAndTruncate` (existing
destination file of 2097152 bytes, request with `NoResume = true`,
remote `Content-Length` 1048576). Both `readResponse` (the larger-file
check at `response.go` 227-229) and `checkExisting` (the
`size < fi.Size()` check at `response.go` 284-286) return
`ErrBadLength` before the `NoResume` check at line 298 is reached, and
the whole `Client.do` pipeline closes with `ErrBadLength` — while the
repository's own tests expect a successful truncate-and-refetch with
`DidResume = false`. -/
theorem thm_C4_code_eval :
    (readResponse ⟨['f'], false, true, 0, false, [], false⟩
        ⟨['f'], 0, false, false, 0, some 2097152, none, .createWrite, none⟩
        ⟨1048576, true, none, []⟩ (oneFileFS ['f'] 2097152)) =
      .error .badLength ∧
    (checkExisting ⟨['f'], false, true, 0, false, [], false⟩
        ⟨['f'], 1048576, false, false, 0, some 2097152, some 1048576,
          .createWrite, none⟩
        [] (fun l => l)).err = some .badLength ∧
    (clientDo ⟨['f'], false, true, 0, false, [], false⟩
        (oneFileFS ['f'] 2097152) ⟨1048576, true, none, []⟩
        ⟨1048576, true, none, []⟩ [] (fun l => l)).err = some .badLength := by
  refine ⟨rfl, by decide, by decide⟩

/-- C10: in `Response.checksum`, when the byte count hashed from the
destination file differs from the response's `Size`, the result is
`ErrBadLength` — not `ErrBadChecksum` — the digest is never compared
and the file is never removed; the digest comparison and the
delete-on-mismatch removal happen only when the hashed byte count
equals `Size`. -/
theorem thm_C10_checksum (req : Req) (size : ℤ) (file : List ℕ)
    (hashFn : List ℕ → List ℕ) (hhash : req.hasHash = true) :
    ((file.length : ℤ) ≠ size →
      (checksumRun req size file hashFn).err = some .badLength ∧
      (checksumRun req size file hashFn).compared = false ∧
      (checksumRun req size file hashFn).removed = false) ∧
    ((checksumRun req size file hashFn).compared = true →
      (file.length : ℤ) = size) ∧
    ((checksumRun req size file hashFn).removed = true →
      (file.length : ℤ) = size ∧ req.deleteOnError = true ∧
      (checksumRun req size file hashFn).err = some .badChecksum) := by
  refine ⟨fun hne => ?_, fun hcmp => ?_, fun hrm => ?_⟩
  · simp [checksumRun, hhash, hne]
  · by_contra hne
    simp [checksumRun, hhash, hne] at hcmp
  · rcases eq_or_ne ((file.length : ℤ)) size with heq | hne
    · refine ⟨heq, ?_, ?_⟩ <;>
      · rcases eq_or_ne (hashFn file) req.checksum with hmm | hmm <;>
          simp_all [checksumRun, hhash, heq]
    · simp [checksumRun, hhash, hne] at hrm

/-- Witness for C10 at a concrete input: a 2-byte file hashed against
an expected size of 3 gives `ErrBadLength` with no comparison and no
removal. -/
theorem wit_C10 :
    (checksumRun ⟨[], false, false, 0, true, [5], true⟩ 3 [1, 2]
      (fun l => l)).err = some .badLength ∧
    (checksumRun ⟨[], false, false, 0, true, [5], true⟩ 3 [1, 2]
      (fun l => l)).compared = false ∧
    (checksumRun ⟨[], false, false, 0, true, [5], true⟩ 3 [1, 2]
      (fun l => l)).removed = false :=
  (thm_C10_checksum ⟨[], false, false, 0, true, [5], true⟩ 3 [1, 2]
    (fun l => l) rfl).1 (by decide)

/-- C7 counterexample: three chunks `[(0,10),(10,20),(20,30)]` where
chunks 1 and 3 complete but chunk 2 fails. The highest-indexed
successful chunk ends at 30, but the source's prefix scan stops at the
first zero entry and reports `LastOffsetEnd = 10`, refuting the claim
as stated. -/
theorem cex_C7 : ¬ claimC7 := by
  intro hcl
  have h := hcl [((0 : ℤ), (10 : ℤ)), (10, 20), (20, 30)] [true, false, true]
    .canceled 30 (by decide) (by decide)
  exact absurd h.2 (by decide)

/-- Helper for C7: the prefix scan of the `completed` array equals
the end offset of the last chunk in the initial unbroken run of
successful chunks (or the accumulator when that run is empty),
provided successful chunks record a non-zero end offset. -/
theorem lastOffsetEndAux_spec :
    ∀ (chunks : List (ℤ × ℤ)) (ok : List Bool) (acc : ℤ),
      ok.length = chunks.length →
      (∀ i, i < ok.length → ok.getD i false = true →
        (chunks.getD i ((0 : ℤ), (0 : ℤ))).2 ≠ 0) →
      lastOffsetEndAux (completedOf chunks ok) acc =
        (match ((chunks.zip ok).takeWhile (fun p => p.2)).getLast? with
         | none => acc
         | some p => p.1.2) := by
  intro chunks
  induction chunks with
  | nil => intro ok acc _ _; simp [completedOf, lastOffsetEndAux]
  | cons c cs ih =>
    intro ok acc hlen hnz
    cases ok with
    | nil => simp at hlen
    | cons o os =>
      cases o with
      | false =>
        simp [completedOf, lastOffsetEndAux, List.takeWhile]
      | true =>
        have hc2 : c.2 ≠ 0 := by
          have := hnz 0 (by simp) (by simp)
          simpa using this
        have hlen2 : os.length = cs.length := by simpa using hlen
        have hnz2 : ∀ i, i < os.length → os.getD i false = true →
            (cs.getD i ((0 : ℤ), (0 : ℤ))).2 ≠ 0 := by
          intro i hi hok
          have := hnz (i + 1) (by simpa using Nat.succ_lt_succ hi)
          simpa using this hok
        have hIH := ih os c.2 hlen2 hnz2
        have hcomp : completedOf (c :: cs) (true :: os) = c.2 :: completedOf cs os := by
          simp [completedOf]
        have hzip : (c :: cs).zip (true :: os) = (c, true) :: cs.zip os := rfl
        have htwc : List.takeWhile (fun p => p.2) ((c, true) :: cs.zip os) =
            (c, true) :: List.takeWhile (fun p => p.2) (cs.zip os) :=
          List.takeWhile_cons_of_pos rfl
        rw [hcomp, hzip, htwc]
        have hlhs : lastOffsetEndAux (c.2 :: completedOf cs os) acc =
            lastOffsetEndAux (completedOf cs os) c.2 := by
          simp [lastOffsetEndAux, hc2]
        rw [hlhs, hIH]
        cases htw : (List.takeWhile (fun p => p.2) (cs.zip os)) with
        | nil => simp
        | cons y ys =>
          cases hgl : (y :: ys).getLast? with
          | none => simp at hgl
          | some z => rw [List.getLast?_cons_cons, hgl]

/-- C7 amended: on a chunk failure the compound error wraps the inner
cause, and its `LastOffsetEnd` equals the end offset of the last chunk
in the initial unbroken run of successfully completed chunks — the
scan over `completed` stops at the first entry still zero — not the
highest-indexed successful chunk; 0 when the very first chunk did not
complete. Requires every successful chunk's end offset to be non-zero
(a zero end offset is indistinguishable from the array's zero initial
value). -/
theorem thm_C7_amended (chunks : List (ℤ × ℤ)) (ok : List Bool) (inner : GrabErr)
    (hlen : ok.length = chunks.length)
    (hnz : ∀ i, i < ok.length → ok.getD i false = true →
      (chunks.getD i ((0 : ℤ), (0 : ℤ))).2 ≠ 0) :
    trErrUnwrap (mkTransferRangesErr inner (completedOf chunks ok)) = inner ∧
    (mkTransferRangesErr inner (completedOf chunks ok)).lastOff =
      (match ((chunks.zip ok).takeWhile (fun p => p.2)).getLast? with
       | none => 0
       | some p => p.1.2) :=
  ⟨rfl, lastOffsetEndAux_spec chunks ok 0 hlen hnz⟩

/-- Witness for C7's amended theorem: five ranged chunks of
`[0, 50)`, chunks 1 and 2 succeed, chunk 3 fails and nothing later
completes; `LastOffsetEnd` is 20, the end offset of chunk 2, and the
compound error unwraps to the inner cause. -/
theorem wit_C7 :
    trErrUnwrap (mkTransferRangesErr .canceled
      (completedOf (transferRangesChunks 50 0 5)
        [true, true, false, false, false])) = .canceled ∧
    (mkTransferRangesErr .canceled
      (completedOf (transferRangesChunks 50 0 5)
        [true, true, false, false, false])).lastOff = 20 :=
  ⟨(thm_C7_amended (transferRangesChunks 50 0 5)
      [true, true, false, false, false] .canceled (by decide) (by decide)).1,
   (thm_C7_amended (transferRangesChunks 50 0 5)
      [true, true, false, false, false] .canceled (by decide) (by decide)).2.trans
     (by decide)⟩

/-- Helper: `setFileInfo` never changes `size`. -/
theorem setFileInfo_size (fs : FileSys) (st : RState) :
    (setFileInfo fs st).size = st.size := by
  unfold setFileInfo
  cases fs st.filename with
  | none => rfl
  | some s =>
    dsimp only
    split <;> rfl

/-- Helper: `setFileInfo` never changes `bytesResumed`. -/
theorem setFileInfo_bytesResumed (fs : FileSys) (st : RState) :
    (setFileInfo fs st).bytesResumed = st.bytesResumed := by
  unfold setFileInfo
  cases fs st.filename with
  | none => rfl
  | some s =>
    dsimp only
    split <;> rfl

/-- Helper: a successful `readResponse` sets
`Size = bytesResumed + ContentLength` and leaves `bytesResumed`
unchanged. -/
theorem readResponse_ok_size (req : Req) (st : RState) (h : HResp) (fs : FileSys)
    (st2 : RState) (hr : readResponse req st h fs = .ok st2) :
    st2.size = st.bytesResumed + h.contentLength ∧
    st2.bytesResumed = st.bytesResumed := by
  simp only [readResponse] at hr
  split_ifs at hr with h1 h2 h3
  · cases hg : guessFilename h.cdFilename h.urlPath with
    | error e => rw [hg] at hr; simp at hr
    | ok name =>
      rw [hg] at hr
      simp only [Except.ok.injEq] at hr
      subst hr
      simp [setFileInfo_size, setFileInfo_bytesResumed]
  · simp only [Except.ok.injEq] at hr
    subst hr
    simp

/-- C8 counterexample: a server reporting no `Content-Length`
(`ContentLength = −1`) on a fresh transfer leaves `Size = −1`, and
`Progress` with 5 bytes complete returns −5 rather than the claimed
0, refuting the claim as stated. -/
theorem cex_C8 : ¬ claimC8 := by
  intro hcl
  have h := hcl ⟨['f'], false, false, 0, false, [], false⟩
    ⟨['f'], 0, false, false, 0, none, none, .createWrite, none⟩
    ⟨-1, false, none, []⟩ (fun _ => none)
    ⟨['f'], -1, false, false, 0, none, some (-1), .createWrite, none⟩ 5 rfl
  have h2 := h.2 rfl
  norm_num [progressOf] at h2

/-- C8 amended: `Progress` returns `BytesComplete / Size` whenever
`Size ≠ 0` and 0 exactly when `Size = 0`; a server reporting no
`Content-Length` (−1) does not make the size-unknown case return 0 —
`readResponse` sets `Size = bytesResumed − 1`, and on a fresh
transfer (`bytesResumed = 0`) `Progress` returns the negated byte
count. -/
theorem thm_C8_amended (req : Req) (st : RState) (h : HResp) (fs : FileSys)
    (st2 : RState) (t : ℤ)
    (hr : readResponse req st h fs = .ok st2)
    (hcl : h.contentLength = -1) :
    st2.size = st.bytesResumed - 1 ∧
    (st.bytesResumed = 0 →
      progressOf st2.size (bytesCompleteOf st2.bytesResumed t) = -(t : ℚ)) ∧
    (∀ s b : ℤ, s ≠ 0 → progressOf s b = (b : ℚ) / (s : ℚ)) ∧
    progressOf 0 t = 0 := by
  obtain ⟨hsz, hbr⟩ := readResponse_ok_size req st h fs st2 hr
  refine ⟨by rw [hsz, hcl]; ring, fun h0 => ?_,
    fun s b hs => by simp [progressOf, hs], by simp [progressOf]⟩
  rw [hsz, hcl, hbr, h0]
  norm_num [progressOf, bytesCompleteOf, div_neg]

/-- Witness for C8's amended theorem at a concrete input: a fresh
transfer with unknown `Content-Length` and 5 bytes complete reports
progress −5. -/
theorem wit_C8 :
    progressOf (-1) (bytesCompleteOf 0 5) = -((5 : ℤ) : ℚ) :=
  (thm_C8_amended ⟨['f'], false, false, 0, false, [], false⟩
    ⟨['f'], 0, false, false, 0, none, none, .createWrite, none⟩
    ⟨-1, false, none, []⟩ (fun _ => none)
    ⟨['f'], -1, false, false, 0, none, some (-1), .createWrite, none⟩ 5
    rfl rfl).2.1 rfl

/-- Helper: every intermediate value of the running byte counter is
bounded by the initial value plus the total of all reads. -/
theorem scanl_add_mem_le :
    ∀ (chunks : List ℕ) (a t : ℕ),
      t ∈ List.scanl (fun acc n => acc + n) a chunks → t ≤ a + chunks.sum := by
  intro chunks
  induction chunks with
  | nil =>
    intro a t ht
    simp [List.scanl] at ht
    simp [ht]
  | cons n rest ih =>
    intro a t ht
    rw [List.scanl_cons, List.singleton_append] at ht
    rcases List.mem_cons.mp ht with hh | hh
    · subst hh
      simp only [List.sum_cons]
      omega
    · have := ih (a + n) t hh
      simp only [List.sum_cons]
      omega

/-- Helper: the final value of the running byte counter is the
initial value plus the total of all reads. -/
theorem scanl_add_getLastD :
    ∀ (chunks : List ℕ) (a d : ℕ),
      (List.scanl (fun acc n => acc + n) a chunks).getLastD d = a + chunks.sum := by
  intro chunks
  induction chunks with
  | nil => intro a d; simp [List.scanl]
  | cons n rest ih =>
    intro a d
    rw [List.scanl_cons, List.singleton_append, List.getLastD_cons]
    rw [ih (a + n) a]
    simp only [List.sum_cons]
    omega

/-- C1: byte-counter invariant. After `readResponse` fixes
`Size = bytesResumed + ContentLength`, and given the HTTP transport
contract that the body yields at most `ContentLength` bytes in total
(`chunks` are the successive read counts of `Response.copy`'s loop),
every observable value of the transferred counter is non-negative and
keeps `BytesComplete ≤ Size` whenever `Size > 0`; and when the body
yields exactly `ContentLength` bytes (successful termination at EOF),
the final `BytesComplete` equals `Size`. -/
theorem thm_C1_counters (req : Req) (st : RState) (h : HResp) (fs : FileSys)
    (st2 : RState) (chunks : List ℕ)
    (hr : readResponse req st h fs = .ok st2)
    (hbody : (chunks.sum : ℤ) ≤ h.contentLength) :
    (∀ t ∈ copyStates chunks, 0 ≤ (t : ℤ) ∧
      (0 < st2.size → bytesCompleteOf st2.bytesResumed (t : ℤ) ≤ st2.size)) ∧
    ((chunks.sum : ℤ) = h.contentLength →
      bytesCompleteOf st2.bytesResumed (((copyStates chunks).getLastD 0 : ℕ) : ℤ) =
        st2.size) := by
  obtain ⟨hsz, hbr⟩ := readResponse_ok_size req st h fs st2 hr
  constructor
  · intro t ht
    refine ⟨Int.natCast_nonneg t, fun _ => ?_⟩
    have hle : t ≤ 0 + chunks.sum := scanl_add_mem_le chunks 0 t ht
    have : (t : ℤ) ≤ (chunks.sum : ℤ) := by exact_mod_cast by omega
    rw [bytesCompleteOf, hsz, hbr]
    omega
  · intro heq
    rw [copyStates, scanl_add_getLastD chunks 0 0]
    rw [bytesCompleteOf, hsz, hbr]
    omega

/-- Witness for C1 at a concrete input: a fresh transfer with
`Content-Length` 5 whose body is read in chunks of 2 and 3 bytes ends
with `BytesComplete` equal to the size 5. -/
theorem wit_C1 :
    bytesCompleteOf
      ((⟨['f'], 5, false, false, 0, none, some 5, .createWrite, none⟩ :
        RState)).bytesResumed
      (((copyStates [2, 3]).getLastD 0 : ℕ) : ℤ) =
    ((⟨['f'], 5, false, false, 0, none, some 5, .createWrite, none⟩ :
      RState)).size :=
  (thm_C1_counters ⟨['f'], false, false, 0, false, [], false⟩
    ⟨['f'], 0, false, false, 0, none, none, .createWrite, none⟩
    ⟨5, false, none, []⟩ (fun _ => none)
    ⟨['f'], 5, false, false, 0, none, some 5, .createWrite, none⟩
    [2, 3] rfl (by decide)).2 (by decide)

/-- Helper: `getLast?` skips a leading element when the tail is
non-empty. -/
theorem getLast?_cons_of_ne {α : Type} (a : α) (l : List α) (h : l ≠ []) :
    (a :: l).getLast? = l.getLast? := by
  cases l with
  | nil => exact absurd rfl h
  | cons x xs => exact List.getLast?_cons_cons

/-- Helper: `Response.copy` always produces a non-empty trace. -/
theorem responseCopy_trace_ne :
    ∀ (c : ℕ) (chunks : List ℕ), (responseCopy c chunks).trace ≠ [] := by
  intro c chunks
  rcases c with _ | _ | c <;> rcases chunks with _ | ⟨n, rest⟩ <;>
    simp [responseCopy]

/-- Helper: in `Response.copy` every read is immediately preceded by
a cancellation checkpoint. -/
theorem responseCopy_readsChecked :
    ∀ (chunks : List ℕ) (c : ℕ) (prev : Option Ev),
      readsChecked prev (responseCopy c chunks).trace = true := by
  intro chunks
  induction chunks with
  | nil => intro c prev; rcases c with _ | _ | c <;> simp [responseCopy, readsChecked]
  | cons n rest ih =>
    intro c prev
    rcases c with _ | _ | c <;> simp [responseCopy, readsChecked, ih]

/-- Helper: in `Response.copy` a checkpoint stands between every read
and the write of the same iteration. -/
theorem responseCopy_betweenOK :
    ∀ (chunks : List ℕ) (c : ℕ), betweenOK (responseCopy c chunks).trace false = true := by
  intro chunks
  induction chunks with
  | nil => intro c; rcases c with _ | _ | c <;> simp [responseCopy, betweenOK]
  | cons n rest ih =>
    intro c
    rcases c with _ | _ | c <;> simp [responseCopy, betweenOK, ih]

/-- Helper: when `Response.copy` returns the cancellation error, its
trace ends at the checkpoint that observed it. -/
theorem responseCopy_cancelStops :
    ∀ (chunks : List ℕ) (c : ℕ),
      (responseCopy c chunks).res = some .canceled →
      endsWithCheck (responseCopy c chunks).trace = true := by
  intro chunks
  induction chunks with
  | nil =>
    intro c hres
    rcases c with _ | _ | c
    · simp [responseCopy, endsWithCheck]
    · simp [responseCopy, endsWithCheck]
    · simp [responseCopy] at hres
  | cons n rest ih =>
    intro c hres
    rcases c with _ | _ | c
    · simp [responseCopy, endsWithCheck]
    · simp [responseCopy, endsWithCheck]
    · have hne := responseCopy_trace_ne c rest
      have hres2 : (responseCopy c rest).res = some .canceled := by
        simpa [responseCopy] using hres
      have htail := ih c hres2
      simp only [responseCopy, endsWithCheck] at htail ⊢
      rw [getLast?_cons_of_ne _ _ (by simp),
        getLast?_cons_of_ne _ _ (by simp),
        getLast?_cons_of_ne _ _ (by simp),
        getLast?_cons_of_ne _ _ hne]
      exact htail

/-- Helper: `copyBuffer` always produces a non-empty trace. -/
theorem copyBufferRun_trace_ne :
    ∀ (c : ℕ) (chunks : List ℕ), (copyBufferRun c chunks).trace ≠ [] := by
  intro c chunks
  rcases c with _ | c
  · simp [copyBufferRun]
  · rcases chunks with _ | ⟨_ | n, rest⟩
    · simp [copyBufferRun]
    · simp [copyBufferRun]
    · rcases c with _ | c2 <;> simp [copyBufferRun]

/-- Helper: in `copyBuffer` every read is immediately preceded by a
cancellation checkpoint. -/
theorem copyBufferRun_readsChecked :
    ∀ (chunks : List ℕ) (c : ℕ) (prev : Option Ev),
      readsChecked prev (copyBufferRun c chunks).trace = true := by
  intro chunks
  induction chunks with
  | nil => intro c prev; rcases c with _ | c <;> simp [copyBufferRun, readsChecked]
  | cons n rest ih =>
    intro c prev
    rcases c with _ | c
    · simp [copyBufferRun, readsChecked]
    · rcases n with _ | n
      · simp [copyBufferRun, readsChecked, ih]
      · rcases c with _ | c2 <;> simp [copyBufferRun, readsChecked, ih]

/-- Helper: in `copyBuffer` a checkpoint stands between every read
and the write of the same iteration (the flag value at entry is
irrelevant because every iteration opens with a checkpoint). -/
theorem copyBufferRun_betweenOK :
    ∀ (chunks : List ℕ) (c : ℕ) (b : Bool),
      betweenOK (copyBufferRun c chunks).trace b = true := by
  intro chunks
  induction chunks with
  | nil => intro c b; rcases c with _ | c <;> simp [copyBufferRun, betweenOK]
  | cons n rest ih =>
    intro c b
    rcases c with _ | c
    · simp [copyBufferRun, betweenOK]
    · rcases n with _ | n
      · simp [copyBufferRun, betweenOK, ih]
      · rcases c with _ | c2 <;> simp [copyBufferRun, betweenOK, ih]

/-- Helper: when `copyBuffer` returns the cancellation error, its
trace ends at the checkpoint that observed it. -/
theorem copyBufferRun_cancelStops :
    ∀ (chunks : List ℕ) (c : ℕ),
      (copyBufferRun c chunks).res = some .canceled →
      endsWithCheck (copyBufferRun c chunks).trace = true := by
  intro chunks
  induction chunks with
  | nil =>
    intro c hres
    rcases c with _ | c
    · simp [copyBufferRun, endsWithCheck]
    · simp [copyBufferRun] at hres
  | cons n rest ih =>
    intro c hres
    rcases c with _ | c
    · simp [copyBufferRun, endsWithCheck]
    · rcases n with _ | n
      · have hne := copyBufferRun_trace_ne c rest
        have hres2 : (copyBufferRun c rest).res = some .canceled := by
          simpa [copyBufferRun] using hres
        have htr : (copyBufferRun (c + 1) (0 :: rest)).trace =
            .check :: .read 0 :: (copyBufferRun c rest).trace := by
          simp [copyBufferRun]
        have htail := ih c hres2
        simp only [endsWithCheck] at htail ⊢
        rw [htr, getLast?_cons_of_ne _ _ (by simp),
          getLast?_cons_of_ne _ _ hne]
        exact htail
      · rcases c with _ | c2
        · simp [copyBufferRun, endsWithCheck]
        · have hne := copyBufferRun_trace_ne c2 rest
          have hres2 : (copyBufferRun c2 rest).res = some .canceled := by
            simpa [copyBufferRun] using hres
          have htr : (copyBufferRun (c2 + 1 + 1) ((n + 1) :: rest)).trace =
              .check :: .read (n + 1) :: .check :: .write (n + 1) ::
                (copyBufferRun c2 rest).trace := by
            simp [copyBufferRun]
          have htail := ih c2 hres2
          simp only [endsWithCheck] at htail ⊢
          rw [htr, getLast?_cons_of_ne _ _ (by simp),
            getLast?_cons_of_ne _ _ (by simp),
            getLast?_cons_of_ne _ _ (by simp),
            getLast?_cons_of_ne _ _ hne]
          exact htail

/-- Helper: `transfer.Copy` always produces a non-empty trace. -/
theorem transferCopy_trace_ne :
    ∀ (c : ℕ) (chunks : List ℕ), (transferCopy c chunks).trace ≠ [] := by
  intro c chunks
  rcases c with _ | c
  · simp [transferCopy]
  · rcases chunks with _ | ⟨_ | n, rest⟩ <;> simp [transferCopy]

/-- Helper: in `transfer.Copy` every read is immediately preceded by
a cancellation checkpoint. -/
theorem transferCopy_readsChecked :
    ∀ (chunks : List ℕ) (c : ℕ) (prev : Option Ev),
      readsChecked prev (transferCopy c chunks).trace = true := by
  intro chunks
  induction chunks with
  | nil => intro c prev; rcases c with _ | c <;> simp [transferCopy, readsChecked]
  | cons n rest ih =>
    intro c prev
    rcases c with _ | c
    · simp [transferCopy, readsChecked]
    · rcases n with _ | n <;> simp [transferCopy, readsChecked, ih]

/-- Helper: when `transfer.Copy` returns the cancellation error, its
trace ends at the checkpoint that observed it. -/
theorem transferCopy_cancelStops :
    ∀ (chunks : List ℕ) (c : ℕ),
      (transferCopy c chunks).res = some .canceled →
      endsWithCheck (transferCopy c chunks).trace = true := by
  intro chunks
  induction chunks with
  | nil =>
    intro c hres
    rcases c with _ | c
    · simp [transferCopy, endsWithCheck]
    · simp [transferCopy] at hres
  | cons n rest ih =>
    intro c hres
    rcases c with _ | c
    · simp [transferCopy, endsWithCheck]
    · have hne := transferCopy_trace_ne c rest
      rcases n with _ | n
      · have hres2 : (transferCopy c rest).res = some .canceled := by
          simpa [transferCopy] using hres
        have htr : (transferCopy (c + 1) (0 :: rest)).trace =
            .check :: .read 0 :: (transferCopy c rest).trace := by
          simp [transferCopy]
        have htail := ih c hres2
        simp only [endsWithCheck] at htail ⊢
        rw [htr, getLast?_cons_of_ne _ _ (by simp),
          getLast?_cons_of_ne _ _ hne]
        exact htail
      · have hres2 : (transferCopy c rest).res = some .canceled := by
          simpa [transferCopy] using hres
        have htr : (transferCopy (c + 1) ((n + 1) :: rest)).trace =
            .check :: .read (n + 1) :: .write (n + 1) ::
              (transferCopy c rest).trace := by
          simp [transferCopy]
        have htail := ih c hres2
        simp only [endsWithCheck] at htail ⊢
        rw [htr, getLast?_cons_of_ne _ _ (by simp),
          getLast?_cons_of_ne _ _ (by simp),
          getLast?_cons_of_ne _ _ hne]
        exact htail

/-- Helper: `requestChunk`'s loop is, step for step, the same loop as
`transfer.Copy` (the source bodies coincide). -/
theorem requestChunkRun_eq :
    ∀ (c : ℕ) (chunks : List ℕ), requestChunkRun c chunks = transferCopy c chunks := by
  intro c chunks
  induction chunks generalizing c with
  | nil => rcases c with _ | c <;> simp [requestChunkRun, transferCopy]
  | cons n rest ih =>
    rcases c with _ | c
    · simp [requestChunkRun, transferCopy]
    · rcases n with _ | n <;> simp [requestChunkRun, transferCopy, ih]

/-- C9 counterexample: in v3 `transfer.Copy`, the trace for a 3-byte
read with an uncancelled context contains a read immediately followed
by its write with no checkpoint in between, refuting the claim as
stated. -/
theorem cex_C9 : ¬ claimC9 := by
  intro hcl
  exact absurd (hcl.2.2.1 5 [3]).2.1 (by decide)

/-- C9 amended: `Response.copy` and `copyBuffer` check the context
before each read and again between each read and its write, and a
checkpoint observing cancellation terminates the transfer with the
context's error before any further write; the v3 `transfer.Copy` and
`requestChunk` loops check only before each read — no checkpoint
separates their reads from the following writes (witnessed by a
concrete trace) — though a checkpoint of theirs that observes
cancellation also terminates before any further write. -/
theorem thm_C9_amended :
    (∀ c chunks, readsChecked none (responseCopy c chunks).trace = true ∧
        betweenOK (responseCopy c chunks).trace false = true ∧
        ((responseCopy c chunks).res = some .canceled →
          endsWithCheck (responseCopy c chunks).trace = true)) ∧
    (∀ c chunks, readsChecked none (copyBufferRun c chunks).trace = true ∧
        betweenOK (copyBufferRun c chunks).trace false = true ∧
        ((copyBufferRun c chunks).res = some .canceled →
          endsWithCheck (copyBufferRun c chunks).trace = true)) ∧
    (∀ c chunks, readsChecked none (transferCopy c chunks).trace = true ∧
        ((transferCopy c chunks).res = some .canceled →
          endsWithCheck (transferCopy c chunks).trace = true)) ∧
    betweenOK (transferCopy 5 [3]).trace false = false ∧
    (∀ c chunks, readsChecked none (requestChunkRun c chunks).trace = true ∧
        ((requestChunkRun c chunks).res = some .canceled →
          endsWithCheck (requestChunkRun c chunks).trace = true)) ∧
    betweenOK (requestChunkRun 5 [3]).trace false = false := by
  refine ⟨fun c chunks => ⟨responseCopy_readsChecked chunks c none,
      responseCopy_betweenOK chunks c, responseCopy_cancelStops chunks c⟩,
    fun c chunks => ⟨copyBufferRun_readsChecked chunks c none,
      copyBufferRun_betweenOK chunks c false, copyBufferRun_cancelStops chunks c⟩,
    fun c chunks => ⟨transferCopy_readsChecked chunks c none,
      transferCopy_cancelStops chunks c⟩,
    by decide,
    fun c chunks => ⟨?_, fun h => ?_⟩,
    by decide⟩
  · rw [requestChunkRun_eq]
    exact transferCopy_readsChecked chunks c none
  · rw [requestChunkRun_eq] at h ⊢
    exact transferCopy_cancelStops chunks c h

/-- Witness for C9's amended theorem at concrete inputs: the checked
read in `Response.copy`, and a cancellation observed by
`transfer.Copy`'s checkpoint ending the trace at that checkpoint. -/
theorem wit_C9 :
    readsChecked none (responseCopy 1 [2]).trace = true ∧
    endsWithCheck (transferCopy 1 [2]).trace = true :=
  ⟨(thm_C9_amended.1 1 [2]).1, (thm_C9_amended.2.2.1 1 [2]).2 (by decide)⟩

/-- Helper: the chunk loop emits exactly the requested number of
chunks. -/
theorem chunkLoop_length (o L cs : ℤ) :
    ∀ (k : ℕ) (s : ℤ), (chunkLoop o L cs k s).length = k := by
  intro k
  induction k with
  | zero => intro s; simp [chunkLoop]
  | succ k ih => intro s; simp [chunkLoop, ih]

/-- Helper: each chunk starts where the previous one ended, from the
loop's running `start`. -/
theorem chunkLoop_contig (o L cs : ℤ) :
    ∀ (k : ℕ) (s : ℤ), contiguousFrom s (chunkLoop o L cs k s) = true := by
  intro k
  induction k with
  | zero => intro s; simp [chunkLoop, contiguousFrom]
  | succ k ih => intro s; simp [chunkLoop, contiguousFrom, ih]

/-- Helper: one unfolding of the chunk loop when at least two chunks
remain and the next end does not exceed `length`. -/
theorem chunkLoop_cons (o L cs : ℤ) (k : ℕ) (s : ℤ) (hle : s + cs ≤ L) :
    chunkLoop o L cs (k + 1 + 1) s =
      (s, s + cs) :: chunkLoop o L cs (k + 1) (s + cs) := by
  simp only [chunkLoop, Nat.succ_ne_zero, if_false]
  rw [if_neg (by omega : ¬ (s + cs > L))]

/-- Helper: every chunk except the last has size exactly `cs`. -/
theorem chunkLoop_sizes (o L cs : ℤ) (hcs : 0 ≤ cs) :
    ∀ (k : ℕ) (s : ℤ), s + (k : ℤ) * cs ≤ L →
      sizesOK cs (chunkLoop o L cs (k + 1) s) = true := by
  intro k
  induction k with
  | zero =>
    intro s _
    simp [chunkLoop, sizesOK]
  | succ k ih =>
    intro s hs
    have hk1 : cs ≤ ((k : ℤ) + 1) * cs :=
      le_mul_of_one_le_left hcs (by omega)
    have hcs1 : s + cs ≤ L := by push_cast at hs; nlinarith
    rw [chunkLoop_cons o L cs k s hcs1]
    have htail := ih (s + cs) (by push_cast at hs ⊢; nlinarith)
    rcases hul : chunkLoop o L cs (k + 1) (s + cs) with _ | ⟨b, rest⟩
    · have := chunkLoop_length o L cs (k + 1) (s + cs)
      rw [hul] at this
      simp at this
    · rw [hul] at htail
      simp [sizesOK, htail]

/-- Helper: the loop's last chunk runs to exactly `length`. -/
theorem chunkLoop_getLast (o L cs : ℤ) (ho : 0 ≤ o) (hcs : 0 ≤ cs) :
    ∀ (k : ℕ) (s : ℤ), s + (k : ℤ) * cs ≤ L →
      (chunkLoop o L cs (k + 1) s).getLast? = some (s + (k : ℤ) * cs, L) := by
  intro k
  induction k with
  | zero =>
    intro s _
    have he : (if o + L > L then L else o + L) = L := by
      split_ifs with hgt
      · rfl
      · omega
    simp [chunkLoop, he]
    omega
  | succ k ih =>
    intro s hs
    have hk1 : cs ≤ ((k : ℤ) + 1) * cs :=
      le_mul_of_one_le_left hcs (by omega)
    have hcs1 : s + cs ≤ L := by push_cast at hs; nlinarith
    rw [chunkLoop_cons o L cs k s hcs1]
    have hne : chunkLoop o L cs (k + 1) (s + cs) ≠ [] := by
      intro hemp
      have := chunkLoop_length o L cs (k + 1) (s + cs)
      rw [hemp] at this
      simp at this
    rw [getLast?_cons_of_ne _ _ hne,
      ih (s + cs) (by push_cast at hs ⊢; nlinarith)]
    congr 2
    push_cast
    ring

/-- C6: for every ranged transfer with `length > 0`,
`offset ∈ [0, length)` and `workers ≥ 1`, the chunk ranges computed by
`transferRanges.Copy` number exactly `workers`, are contiguous
starting at `offset`, every chunk except the last has size
`(length − offset) / workers`, and the last chunk ends exactly at
`length` and absorbs the division remainder. -/
theorem thm_C6_chunks (L o : ℤ) (w : ℕ) (hL : 0 < L) (ho : 0 ≤ o)
    (hoL : o < L) (hw : 1 ≤ w) :
    (transferRangesChunks L o w).length = w ∧
    contiguousFrom o (transferRangesChunks L o w) = true ∧
    sizesOK ((L - o) / (w : ℤ)) (transferRangesChunks L o w) = true ∧
    (transferRangesChunks L o w).getLast? =
      some (o + ((w : ℤ) - 1) * ((L - o) / (w : ℤ)), L) ∧
    L - (o + ((w : ℤ) - 1) * ((L - o) / (w : ℤ))) =
      (L - o) / (w : ℤ) + (L - o) % (w : ℤ) := by
  obtain ⟨k, rfl⟩ : ∃ k, w = k + 1 := ⟨w - 1, by omega⟩
  have hw0 : (0 : ℤ) < ((k + 1 : ℕ) : ℤ) := by positivity
  have hcs : 0 ≤ (L - o) / ((k + 1 : ℕ) : ℤ) :=
    Int.ediv_nonneg (by omega) (by omega)
  have hdiv := Int.ediv_add_emod (L - o) ((k + 1 : ℕ) : ℤ)
  have hmod := Int.emod_nonneg (L - o) (ne_of_gt hw0)
  have hwcs : ((k + 1 : ℕ) : ℤ) * ((L - o) / ((k + 1 : ℕ) : ℤ)) ≤ L - o := by
    linarith
  have hks : o + (k : ℤ) * ((L - o) / ((k + 1 : ℕ) : ℤ)) ≤ L := by
    have h1 : (k : ℤ) * ((L - o) / ((k + 1 : ℕ) : ℤ)) ≤
        ((k + 1 : ℕ) : ℤ) * ((L - o) / ((k + 1 : ℕ) : ℤ)) := by
      push_cast at hcs ⊢
      nlinarith
    linarith
  have hrw : transferRangesChunks L o (k + 1) =
      chunkLoop o L ((L - o) / ((k + 1 : ℕ) : ℤ)) (k + 1) o := by
    simp [transferRangesChunks]
  refine ⟨?_, ?_, ?_, ?_, ?_⟩
  · rw [hrw]; exact chunkLoop_length o L _ (k + 1) o
  · rw [hrw]; exact chunkLoop_contig o L _ (k + 1) o
  · rw [hrw]; exact chunkLoop_sizes o L _ hcs k o hks
  · rw [hrw, chunkLoop_getLast o L _ ho hcs k o hks]
    congr 2
    push_cast
    ring
  · push_cast at hdiv hmod ⊢
    ring_nf at hdiv ⊢
    linarith

/-- Witness for C6 at a concrete input: `[2, 10)` split across three
workers gives chunks `[(2,4),(4,6),(6,10)]` — three contiguous
chunks, the first two sized 2 = (10−2)/3, the last ending at 10 and
absorbing the remainder. -/
theorem wit_C6 :
    (transferRangesChunks 10 2 3).length = 3 ∧
    contiguousFrom 2 (transferRangesChunks 10 2 3) = true ∧
    sizesOK ((10 - 2) / ((3 : ℕ) : ℤ)) (transferRangesChunks 10 2 3) = true ∧
    (transferRangesChunks 10 2 3).getLast? =
      some (2 + (((3 : ℕ) : ℤ) - 1) * ((10 - 2) / ((3 : ℕ) : ℤ)), 10) ∧
    (10 : ℤ) - (2 + (((3 : ℕ) : ℤ) - 1) * ((10 - 2) / ((3 : ℕ) : ℤ))) =
      (10 - 2) / ((3 : ℕ) : ℤ) + (10 - 2) % ((3 : ℕ) : ℤ) :=
  thm_C6_chunks 10 2 3 (by decide) (by decide) (by decide) (by decide)

/-- Helper: every element kept by `takeWhile` satisfies the
predicate. -/
theorem mem_takeWhile_pred {α : Type} (q : α → Bool) :
    ∀ (l : List α) (x : α), x ∈ l.takeWhile q → q x = true := by
  intro l
  induction l with
  | nil => intro x hx; simp [List.takeWhile] at hx
  | cons a t ih =>
    intro x hx
    by_cases hq : q a = true
    · rw [List.takeWhile_cons_of_pos hq] at hx
      rcases List.mem_cons.mp hx with rfl | hx2
      · exact hq
      · exact ih x hx2
    · rw [List.takeWhile_cons_of_neg (by simpa using hq)] at hx
      simp at hx

/-- Helper: the first element surviving `dropWhile` fails the
predicate. -/
theorem dropWhile_head_neg {α : Type} (q : α → Bool) :
    ∀ (l : List α) (c : α) (r : List α), l.dropWhile q = c :: r → q c = false := by
  intro l
  induction l with
  | nil => intro c r hcr; simp [List.dropWhile] at hcr
  | cons a t ih =>
    intro c r hcr
    by_cases hq : q a = true
    · rw [List.dropWhile_cons_of_pos hq] at hcr
      exact ih c r hcr
    · rw [List.dropWhile_cons_of_neg (by simpa using hq)] at hcr
      injection hcr with h1 h2
      subst h1
      simpa using hq

/-- Helper: for a non-empty path with no trailing slash, `path.Base`
returns a non-empty suffix containing no slash — the path's last
non-empty segment: either the whole path, or everything after a
slash. -/
theorem pathBase_spec (p : List Char) (hne : p ≠ [])
    (hsl : p.getLast? ≠ some '/') :
    pathBase p ≠ [] ∧ '/' ∉ pathBase p ∧
      (pathBase p = p ∨ ∃ pre, p = pre ++ '/' :: pathBase p) := by
  obtain ⟨a, r, hrev⟩ : ∃ a r, p.reverse = a :: r := by
    rcases hq : p.reverse with _ | ⟨a, r⟩
    · exact absurd (by simpa using congrArg List.reverse hq) hne
    · exact ⟨a, r, rfl⟩
  have hlast : p.getLast? = some a := by
    rw [← List.head?_reverse, hrev]
    rfl
  have hha : a ≠ '/' := by
    intro hcontra
    rw [hcontra] at hlast
    exact hsl hlast
  have hq0 : (p.reverse.dropWhile (fun c => c = '/')).reverse = p := by
    rw [hrev, List.dropWhile_cons_of_neg (by simpa using hha), ← hrev,
      List.reverse_reverse]
  have hpb : pathBase p = (p.reverse.takeWhile (fun c => c ≠ '/')).reverse := by
    unfold pathBase
    rw [if_neg hne]
    dsimp only
    rw [hq0, if_neg hne]
  have hsplit : p.reverse =
      p.reverse.takeWhile (fun c => c ≠ '/') ++
        p.reverse.dropWhile (fun c => c ≠ '/') :=
    (List.takeWhile_append_dropWhile _ p.reverse).symm
  have htne : p.reverse.takeWhile (fun c => c ≠ '/') ≠ [] := by
    rw [hrev, List.takeWhile_cons_of_pos (by simpa using hha)]
    simp
  have hslt : '/' ∉ p.reverse.takeWhile (fun c => c ≠ '/') := by
    intro hmem
    have := mem_takeWhile_pred _ _ _ hmem
    simp at this
  refine ⟨?_, ?_, ?_⟩
  · rw [hpb]
    simpa using htne
  · rw [hpb]
    intro hmem
    exact hslt (by simpa using hmem)
  · rcases hdc : p.reverse.dropWhile (fun c => c ≠ '/') with _ | ⟨c, d2⟩
    · left
      rw [hpb]
      have hrt : p.reverse = p.reverse.takeWhile (fun c => c ≠ '/') := by
        conv_lhs => rw [hsplit]
        rw [hdc, List.append_nil]
      rw [← hrt, List.reverse_reverse]
    · right
      have hc : c = '/' := by
        have := dropWhile_head_neg (fun c => c ≠ '/') p.reverse c d2 hdc
        simpa using this
      refine ⟨d2.reverse, ?_⟩
      rw [hpb]
      calc p = p.reverse.reverse := (List.reverse_reverse p).symm
        _ = (p.reverse.takeWhile (fun c => c ≠ '/') ++
              p.reverse.dropWhile (fun c => c ≠ '/')).reverse := by rw [← hsplit]
        _ = (p.reverse.dropWhile (fun c => c ≠ '/')).reverse ++
              (p.reverse.takeWhile (fun c => c ≠ '/')).reverse := by
            rw [List.reverse_append]
        _ = (c :: d2).reverse ++
              (p.reverse.takeWhile (fun c => c ≠ '/')).reverse := by rw [hdc]
        _ = d2.reverse ++ '/' ::
              (p.reverse.takeWhile (fun c => c ≠ '/')).reverse := by
            rw [List.reverse_cons, hc]
            simp

/-- C5: filename resolution. The basename comes from the
`Content-Disposition` `filename` parameter when present; otherwise,
for a non-empty URL path without a trailing slash, from `path.Base`
of the URL path — a non-empty, slash-free suffix, i.e. the last
non-empty segment; an empty URL path or one ending in a slash
disqualifies URL-based naming, and with no `Content-Disposition`
filename the result is `ErrNoFilename`, which `readResponse`
propagates when the destination hint was a directory (filename still
unresolved). -/
theorem thm_C5_filename (cd : Option (List Char)) (p : List Char) (req : Req)
    (st : RState) (h : HResp) (fs : FileSys) :
    (∀ n, cd = some n → guessFilename cd p = .ok n) ∧
    (cd = none → p ≠ [] → p.getLast? ≠ some '/' →
      guessFilename cd p = .ok (pathBase p) ∧ pathBase p ≠ [] ∧
      '/' ∉ pathBase p ∧
      (pathBase p = p ∨ ∃ pre, p = pre ++ '/' :: pathBase p)) ∧
    (cd = none → (p = [] ∨ p.getLast? = some '/') →
      guessFilename cd p = .error .noFilename) ∧
    (st.filename = [] → st.fi = none → req.size = 0 →
      h.cdFilename = none → (h.urlPath = [] ∨ h.urlPath.getLast? = some '/') →
      readResponse req st h fs = .error .noFilename) := by
  refine ⟨fun n hn => by subst hn; rfl, fun hcd hne hsl => ?_,
    fun hcd hor => ?_, fun hf hfi hsz hcd hor => ?_⟩
  · subst hcd
    obtain ⟨h1, h2, h3⟩ := pathBase_spec p hne hsl
    exact ⟨by simp [guessFilename, hne, hsl], h1, h2, h3⟩
  · subst hcd
    simp only [guessFilename]
    rw [if_neg (by tauto)]
  · have hg : guessFilename h.cdFilename h.urlPath = .error .noFilename := by
      rw [hcd]
      simp only [guessFilename]
      rw [if_neg (by tauto)]
    simp only [readResponse, hf, hfi, hsz, hg]
    rw [if_neg (by simp [hsz]), if_neg (by simp [hfi])]
    simp

/-- Witness for C5 at concrete inputs: URL path "ab/c" resolves to
its last segment via `path.Base`, and a directory destination with a
trailing-slash URL path and no `Content-Disposition` filename makes
`readResponse` fail with `ErrNoFilename`. -/
theorem wit_C5 :
    (guessFilename none ['a', 'b', '/', 'c'] =
        .ok (pathBase ['a', 'b', '/', 'c']) ∧
      pathBase ['a', 'b', '/', 'c'] ≠ [] ∧
      '/' ∉ pathBase ['a', 'b', '/', 'c'] ∧
      (pathBase ['a', 'b', '/', 'c'] = ['a', 'b', '/', 'c'] ∨
        ∃ pre, ['a', 'b', '/', 'c'] = pre ++ '/' :: pathBase ['a', 'b', '/', 'c'])) ∧
    readResponse ⟨['d'], false, false, 0, false, [], false⟩
      ⟨[], 0, false, false, 0, none, none, .createWrite, none⟩
      ⟨3, false, none, ['x', '/']⟩ (fun _ => none) = .error .noFilename :=
  ⟨(thm_C5_filename none ['a', 'b', '/', 'c']
      ⟨['d'], false, false, 0, false, [], false⟩
      ⟨[], 0, false, false, 0, none, none, .createWrite, none⟩
      ⟨3, false, none, ['x', '/']⟩ (fun _ => none)).2.1 rfl (by decide) (by decide),
   (thm_C5_filename none ['x', '/']
      ⟨['d'], false, false, 0, false, [], false⟩
      ⟨[], 0, false, false, 0, none, none, .createWrite, none⟩
      ⟨3, false, none, ['x', '/']⟩ (fun _ => none)).2.2.2 rfl rfl rfl rfl
     (Or.inr (by decide))⟩
